import Mathlib

/-!
Verification development for the memory / summarization engine of the
"Rincón de Patri" Telegram assistant (src/index.js).

Strings are modelled as `List Char` (one `Char` per Unicode scalar value;
none of the patterns below can match half of a surrogate pair in a way
that distinguishes the two representations, so this is faithful to the
JavaScript code-unit semantics for these particular regexes).

The response sanitizer (src/index.js lines 2351-2409) is embedded as a
pure function `sanitize`.  Each JavaScript regex it uses is fixed, so we
embed each one as a dedicated matcher returning the length of the match
at the current position (`Option Nat`), with JavaScript preference order
(greedy quantifiers longest-first, alternation left-first, leftmost
match, and `String.replace` with the `g` flag scanning the original
string left to right without rescanning replaced text).
-/

namespace Rincon

set_option maxRecDepth 100000

/-- The U+1F4AC SPEECH BALLOON character that starts every signature. -/
def emojiC : Char := Char.ofNat 128172

/-- Newline character. -/
def nlC : Char := Char.ofNat 10

/-- Lower-casing used to model the JavaScript `i` flag on the alphabet the
patterns use (ASCII letters plus the Spanish accented letters). -/
def toLow (c : Char) : Char :=
  if 65 ≤ c.toNat ∧ c.toNat ≤ 90 then Char.ofNat (c.toNat + 32)
  else if c.toNat = 193 then Char.ofNat 225   -- Á → á
  else if c.toNat = 201 then Char.ofNat 233   -- É → é
  else if c.toNat = 205 then Char.ofNat 237   -- Í → í
  else if c.toNat = 211 then Char.ofNat 243   -- Ó → ó
  else if c.toNat = 218 then Char.ofNat 250   -- Ú → ú
  else if c.toNat = 209 then Char.ofNat 241   -- Ñ → ñ
  else if c.toNat = 220 then Char.ofNat 252   -- Ü → ü
  else c

/-- JavaScript `\s` character class (WhiteSpace ∪ LineTerminator). -/
def isJsWs (c : Char) : Bool :=
  c.toNat = 32 ∨ c.toNat = 9 ∨ c.toNat = 10 ∨ c.toNat = 11 ∨ c.toNat = 12 ∨
  c.toNat = 13 ∨ c.toNat = 160 ∨ c.toNat = 5760 ∨
  (8192 ≤ c.toNat ∧ c.toNat ≤ 8202) ∨ c.toNat = 8232 ∨ c.toNat = 8233 ∨
  c.toNat = 8239 ∨ c.toNat = 8287 ∨ c.toNat = 12288 ∨ c.toNat = 65279

/-- JavaScript line terminators (what multiline `$` matches before, and
what `.` refuses to match). -/
def isLineTerm (c : Char) : Bool :=
  c.toNat = 10 ∨ c.toNat = 13 ∨ c.toNat = 8232 ∨ c.toNat = 8233

/-- Length of the maximal run of `\s` characters at the head. -/
def spaceRun : List Char → Nat
  | [] => 0
  | c :: r => if isJsWs c then spaceRun r + 1 else 0

/-- Length of the maximal run of characters before the first line
terminator (what a lazy `.*?$` consumes under the `m` flag). -/
def lineRun : List Char → Nat
  | [] => 0
  | c :: r => if isLineTerm c then 0 else lineRun r + 1

/-- Length of the maximal run of `\n` at the head. -/
def nlRun : List Char → Nat
  | [] => 0
  | c :: r => if c = nlC then nlRun r + 1 else 0

/-- Case-insensitive prefix test: `pat` is stored lower-cased. -/
def isCiPrefix : List Char → List Char → Bool
  | [], _ => true
  | _ :: _, [] => false
  | p :: ps, c :: cs => toLow c = p && isCiPrefix ps cs

/-- JavaScript `String.prototype.trim` from the left. -/
def trimL : List Char → List Char
  | [] => []
  | c :: r => if isJsWs c then trimL r else c :: r

/-- JavaScript `String.prototype.trim`. -/
def trim (s : List Char) : List Char :=
  (trimL (trimL s.reverse).reverse)

/-- Global regex replace, JS semantics: scan the original string left to
right; at each position, if the matcher matches (length `n+1`), emit the
replacement and resume after the match; no rescanning of replaced text.
`fuel` only bounds recursion; `fuel = s.length` always suffices, and when
the matcher never matches the result is `s` for every fuel. -/
def replaceScanF (find : List Char → Option Nat) (repl : List Char) :
    Nat → List Char → List Char
  | _, [] => []
  | 0, s => s
  | f + 1, c :: rest =>
    match find (c :: rest) with
    | some (n + 1) => repl ++ replaceScanF find repl f (List.drop n rest)
    | _ => c :: replaceScanF find repl f rest

/-- Global regex replace (JS `String.replace` with the `g` flag). -/
def replaceScan (find : List Char → Option Nat) (repl : List Char)
    (s : List Char) : List Char :=
  replaceScanF find repl s.length s

/-- Does the regex match anywhere (JS `RegExp.test` for an unanchored
pattern): leftmost-position search. -/
def searchAny (find : List Char → Option Nat) : List Char → Bool
  | [] => (find []).isSome
  | c :: r => (find (c :: r)).isSome || searchAny find r

/-- `replace(/\n{3,}/g, "\n\n")`, src/index.js line 2395: collapse every
maximal run of three or more newlines to exactly two. -/
def collapseF : Nat → List Char → List Char
  | _, [] => []
  | 0, s => s
  | f + 1, c :: rest =>
    if c = nlC then
      let k := nlRun rest
      if k + 1 ≥ 3 then nlC :: nlC :: collapseF f (List.drop k rest)
      else c :: collapseF f rest
    else c :: collapseF f rest

/-- Collapse 3+ newlines to 2 (fuel instantiated). -/
def collapse (s : List Char) : List Char := collapseF s.length s

/-! ### Matcher combinators (JS backtracking preference order)

A matcher continuation maps the rest of the input to `Option Nat`, the
total number of characters the rest of the pattern consumes. -/

/-- Greedy `\s`-quantifier backtracking: try `j` spaces for `j` from the
given bound down to `1` (the bound is instantiated with the maximal space
run, so every tried prefix is all-spaces, as `\s+`/`\s*` require). -/
def wsTry (cont : List Char → Option Nat) : Nat → List Char → Option Nat
  | 0, _ => none
  | j + 1, t =>
    match cont (List.drop (j + 1) t) with
    | some m => some (j + 1 + m)
    | none => wsTry cont j t

/-- `\s+` (greedy, at least one). -/
def wsPlus (cont : List Char → Option Nat) (t : List Char) : Option Nat :=
  wsTry cont (spaceRun t) t

/-- `\s*` (greedy, possibly zero). -/
def wsStar (cont : List Char → Option Nat) (t : List Char) : Option Nat :=
  match wsTry cont (spaceRun t) t with
  | some r => some r
  | none => cont t

/-- A case-insensitive literal followed by the continuation. -/
def litCi (lit : List Char) (cont : List Char → Option Nat)
    (t : List Char) : Option Nat :=
  if isCiPrefix lit t then
    match cont (List.drop lit.length t) with
    | some m => some (lit.length + m)
    | none => none
  else none

/-- Greedy optional single character `c?`: try consuming it, fall back to
not consuming it. -/
def optChar (c : Char) (cont : List Char → Option Nat)
    (t : List Char) : Option Nat :=
  match t with
  | [] => cont []
  | x :: r =>
    if toLow x = c then
      match cont r with
      | some m => some (m + 1)
      | none => cont (x :: r)
    else cont (x :: r)

/-- Ordered alternation ending the pattern: first alternative whose
lower-cased literal is a prefix wins. -/
def altEnd (alts : List (List Char)) (t : List Char) : Option Nat :=
  match alts with
  | [] => none
  | a :: rest => if isCiPrefix a t then some a.length else altEnd rest t

/-- Pattern-done continuation. -/
def pDone : List Char → Option Nat := fun _ => some 0

/-! ### The six generic-greeting patterns (src/index.js lines 2359-2366),
each anchored at the start (`^`, no `m` flag), `i` flag. -/

/-- `/^¡?Hola!?\s*(Soy|Estoy|Eres|¿Cómo estás)/i` -/
def matchGen1 (s : List Char) : Option Nat :=
  optChar (Char.ofNat 161)
    (litCi ("hola".toList)
      (optChar (Char.ofNat 33)
        (wsStar (altEnd ["soy".toList, "estoy".toList, "eres".toList,
                         "¿cómo estás".toList])))) s

/-- `/^Hola\s+(Patri\s+)?(,|,?\s+)?(soy|estoy|¿cómo estás)/i`
(`(Patri\s+)?` greedy optional group, then `(,|,?\s+)?` where the first
alternative is a bare comma and the second an optional comma followed by
whitespace, then the final alternation). -/
def matchGen2 (s : List Char) : Option Nat :=
  let fin := altEnd ["soy".toList, "estoy".toList, "¿cómo estás".toList]
  let grp2 : List Char → Option Nat := fun t =>
    match litCi [Char.ofNat 44] fin t with
    | some r => some r
    | none =>
      match optChar (Char.ofNat 44) (wsPlus fin) t with
      | some r => some r
      | none => fin t
  let grp1 : List Char → Option Nat := fun t =>
    match litCi ("patri".toList) (wsPlus grp2) t with
    | some r => some r
    | none => grp2 t
  litCi ("hola".toList) (wsPlus grp1) s

/-- `/^Estoy aquí para escucharte/i` -/
def matchGen3 (s : List Char) : Option Nat :=
  litCi ("estoy aquí para escucharte".toList) pDone s

/-- `/^¿Hay algo en particular que te gustaría compartir/i` -/
def matchGen4 (s : List Char) : Option Nat :=
  litCi ("¿hay algo en particular que te gustaría compartir".toList) pDone s

/-- `/^¿Cómo estás hoy\?/i` -/
def matchGen5 (s : List Char) : Option Nat :=
  litCi ("¿cómo estás hoy?".toList) pDone s

/-- `/^Soy tu psicólogo virtual/i` -/
def matchGen6 (s : List Char) : Option Nat :=
  litCi ("soy tu psicólogo virtual".toList) pDone s

/-- One `forEach` step (lines 2368-2373): if the anchored pattern tests
true, remove the first (hence prefix) match and `trim`. -/
def genericStep (m : List Char → Option Nat) (s : List Char) : List Char :=
  match m s with
  | some n => trim (List.drop n s)
  | none => s

/-- All six generic-pattern removals, in array order. -/
def genericStrip (s : List Char) : List Char :=
  genericStep matchGen6 (genericStep matchGen5 (genericStep matchGen4
    (genericStep matchGen3 (genericStep matchGen2 (genericStep matchGen1 s)))))

/-! ### Signature removal (lines 2375-2392) and the final signature
(lines 2397-2407). -/

/-- Matcher for a case-insensitive literal that begins with the 💬
character (the escaped-literal `new RegExp(sig, "gi")` branch of the
`oldSignatures` loop). `litTail` is the lower-cased remainder of the
literal after the 💬. -/
def findEmojiLit (litTail : List Char) : List Char → Option Nat
  | [] => none
  | c :: rest =>
    if c = emojiC && isCiPrefix litTail rest then some (1 + litTail.length)
    else none

/-- Matcher for `/💬\s*LIT/gi`.  Because `LIT` starts with a non-space
letter, the greedy `\s*` can only succeed with the maximal space run, so
no backtracking below the maximum is needed. -/
def findEmojiWsLit (lit : List Char) : List Char → Option Nat
  | [] => none
  | c :: rest =>
    if c = emojiC then
      let j := spaceRun rest
      if isCiPrefix lit (List.drop j rest) then some (1 + j + lit.length)
      else none
    else none

/-- Matcher for `/💬\s*El Rincón de Patri.*?$/gmi`: the lazy `.*?$` under
the `m` flag consumes exactly up to (not including) the first line
terminator. -/
def findSigLine : List Char → Option Nat
  | [] => none
  | c :: rest =>
    if c = emojiC then
      let j := spaceRun rest
      let lit := "el rincón de patri".toList
      if isCiPrefix lit (List.drop j rest) then
        some (1 + j + lit.length + lineRun (List.drop (j + lit.length) rest))
      else none
    else none

/-- The current-format signature for a given `botVersion` (line 2399);
`getBotConfig` defaults `botVersion` to "V.1.1". -/
def sigOf (ver : List Char) : List Char :=
  "💬 El Rincón de Patri ".toList ++ ver

/-- `response.match(/💬\s*El Rincón de Patri/i)` (line 2402). -/
def hasSig (s : List Char) : Bool :=
  searchAny (findEmojiWsLit ("el rincón de patri".toList)) s

/-- Fallback for an empty generated reply (lines 2353-2356). -/
def emptyFallback : List Char :=
  "Lo siento, no pude generar una respuesta adecuada. ¿Puedes reformular tu mensaje?".toList

/-- The response sanitizer, src/index.js lines 2351-2409: trim, fallback
for empty, strip generic greetings, remove the three literal and three
regex signature forms globally, collapse 3+ blank lines and trim, then
append the current signature if absent or rewrite every remaining
signature line to it. -/
def sanitize (ver : List Char) (raw : List Char) : List Char :=
  let r0 := trim raw
  let r1 := if r0.isEmpty then emptyFallback else r0
  let r2 := genericStrip r1
  let r3 := replaceScan (findEmojiLit (" tu psicólogo virtual".toList)) [] r2
  let r4 := replaceScan (findEmojiLit (" tu rincón".toList)) [] r3
  let r5 := replaceScan (findEmojiLit (" el rincón de patri".toList)) [] r4
  let r6 := replaceScan (findEmojiWsLit ("tu psicólogo virtual".toList)) [] r5
  let r7 := replaceScan (findEmojiWsLit ("tu rincón".toList)) [] r6
  let r8 := replaceScan findSigLine [] r7
  let r9 := trim (collapse r8)
  if hasSig r9 then replaceScan findSigLine (sigOf ver) r9
  else r9 ++ nlC :: nlC :: sigOf ver

/-- Default bot version (line 1443 / line 2398 fallback). -/
def verDefault : List Char := "V.1.1".toList

/-- Number of positions of `s` at which `pat` occurs (as a contiguous
sublist); "the text contains the signature exactly once" is
`countSub sig text = 1`. -/
def countSub (pat : List Char) : List Char → Nat
  | [] => if pat.isPrefixOf [] then 1 else 0
  | c :: r => (if pat.isPrefixOf (c :: r) then 1 else 0) + countSub pat r

/-! ## Data model (src/index.js lines 97-108)

`MAX_HISTORY_MESSAGES = 50`, `MAX_SUMMARY_MESSAGES = 10`,
`MAX_SUMMARIES_PER_CATEGORY = 5`, `CLINICAL_NOTES_INTERVAL = 10`. -/

/-- One stored turn (`{user, bot, timestamp}`); the timestamp is kept as
its calendar-day string, which is the only part the engine inspects
(diary filtering compares `toISOString().split("T")[0]`). -/
structure Msg where
  user : String
  bot : String
  date : String
deriving DecidableEq, Repr

/-- Push an element and evict the oldest when the capacity is exceeded
(`messages.push(...); if (messages.length > CAP) messages.shift()`,
the shape used at lines 2451-2458 with cap 50 and 2627-2636 with cap 5). -/
def pushEvict (cap : Nat) (l : List α) (a : α) : List α :=
  if cap < (l ++ [a]).length then (l ++ [a]).tail else l ++ [a]

/-- The in-memory history of a conversation after a sequence of appends
through `saveMessage` (lines 2427-2483), starting from a fresh
conversation. -/
def historyAfter (msgs : List Msg) : List Msg :=
  msgs.foldl (pushEvict 50) []

/-- One categorized summary entry
(`{summary, timestamp, messageCount}`, lines 2627-2631). -/
structure SEntry where
  summary : String
  timestamp : String
  messageCount : Nat
deriving DecidableEq, Repr

/-- Lookup in the category → summaries object (`summaries[category]`,
absent key behaving as the empty list per lines 2622-2624). -/
def getCat : List (String × List SEntry) → String → List SEntry
  | [], _ => []
  | (k, v) :: r, c => if k = c then v else getCat r c

/-- Update of the category → summaries object; a fresh key is appended
(JavaScript object property insertion order). -/
def setCat : List (String × List SEntry) → String → List SEntry → List (String × List SEntry)
  | [], c, v => [(c, v)]
  | (k, w) :: r, c, v => if k = c then (c, v) :: r else (k, w) :: setCat r c v

/-- The per-category effect of one successful summarizer pass (lines
2614-2638): push the entry onto its category and shift the oldest when
the list exceeds `MAX_SUMMARIES_PER_CATEGORY = 5`. -/
def summariesAfter (passes : List (String × SEntry)) : List (String × List SEntry) :=
  passes.foldl (fun m p => setCat m p.1 (pushEvict 5 (getCat m p.1) p.2)) []

/-- The entries a sequence of passes appended under one category, in
order. -/
def entriesOf (passes : List (String × SEntry)) (c : String) : List SEntry :=
  (passes.filter (fun p => p.1 == c)).map Prod.snd

/-! ## Daily diary (src/index.js lines 3019-3103) -/

/-- One diary entry (`{date, summary, timestamp, messageCount}`,
lines 3034-3039). -/
structure DEntry where
  date : String
  summary : String
  timestamp : String
  messageCount : Nat
deriving DecidableEq, Repr

instance : IsTotal DEntry (fun a b => b.date ≤ a.date) :=
  ⟨fun a b => (le_total b.date a.date)⟩

instance : IsTrans DEntry (fun a b => b.date ≤ a.date) :=
  ⟨fun _ _ _ hab hbc => le_trans hbc hab⟩

/-- Sort most-recent-date first
(`diary.sort((a, b) => b.date.localeCompare(a.date))`, line 3051;
`localeCompare` on `YYYY-MM-DD` strings is their lexicographic order). -/
def sortDesc (l : List DEntry) : List DEntry :=
  l.insertionSort (fun a b => b.date ≤ a.date)

/-- Replace the first entry carrying the same date, else append at the
end — exactly `findIndex` (line 3033) followed by indexed assignment
(line 3043) or `push` (line 3047). -/
def upsertByDate (e : DEntry) : List DEntry → List DEntry
  | [] => [e]
  | x :: xs => if x.date == e.date then e :: xs else x :: upsertByDate e xs

/-- `saveDailyDiaryEntry` (lines 3019-3069) restricted to its effect on
the stored diary list: no-op on an empty summary (the `if (!summary)
return` guard), otherwise upsert keyed by date and re-sort descending.
`histLen` is `getHistory(chatId).length` at save time and `ts` the save
timestamp. -/
def saveDiaryPure (diary : List DEntry) (histLen : Nat) (summary : String)
    (date : String) (ts : String) : List DEntry :=
  if summary = "" then diary
  else sortDesc (upsertByDate ⟨date, summary, ts, histLen⟩ diary)

/-- Dates of the stored diary entries. -/
def datesOf (l : List DEntry) : List String := l.map DEntry.date

/-- Number of stored entries carrying a given date. -/
def countDate (l : List DEntry) (d : String) : Nat :=
  (l.filter (fun e => e.date == d)).length

/-- A sequence of successful diary generations applied to a diary list:
each element is `(summary, date, histLen, ts)`. -/
def diaryRuns (l : List DEntry) : List (String × String × Nat × String) → List DEntry
  | [] => l
  | r :: rs => diaryRuns (saveDiaryPure l r.2.2.1 r.1 r.2.1 r.2.2.2) rs

/-! ## Clinical notes (src/index.js lines 2024-2069, 2865-2921) -/

/-- One clinical note (`{note, timestamp, sessionNumber, messageCount}`,
lines 2888-2893); `messageCount` is the spec's `turnCountAtGeneration`. -/
structure CNote where
  note : String
  timestamp : String
  sessionNumber : Nat
  messageCount : Nat
deriving DecidableEq, Repr

/-- The trigger guard `shouldGenerateClinicalNote` (lines 2032-2034) with
`CLINICAL_NOTES_INTERVAL = 10`: enough messages, an exact multiple of the
interval, and no existing note for this exact count. -/
def clinGuard (histLen : Nat) (notes : List CNote) : Bool :=
  (10 ≤ histLen) && (histLen % 10 == 0) &&
    !(notes.any (fun n => n.messageCount == histLen))

/-- `saveClinicalNote` (lines 2865-2921) on the stored list: rejects an
empty note, otherwise appends with `sessionNumber = length + 1` and
`messageCount = getHistory(chatId).length`; it performs no duplicate
check of its own. -/
def saveClinPure (notes : List CNote) (histLen : Nat) (note : String)
    (ts : String) : List CNote :=
  if note = "" then notes
  else notes ++ [⟨note, ts, notes.length + 1, histLen⟩]

/-- One full sequential execution of the clinical-note trigger logic at a
given turn count: evaluate the guard (line 2032), then generate
(`gen = none` models a failed generation returning null, line 2858) and
persist. -/
def clinTriggerOnce (notes : List CNote) (histLen : Nat)
    (gen : Option String) (ts : String) : List CNote :=
  if clinGuard histLen notes then
    match gen with
    | some s => saveClinPure notes histLen s ts
    | none => notes
  else notes

/-- Two overlapping executions of the trigger logic at the same turn
count, in the schedule the code permits: both handler instances read the
note list and evaluate the guard (lines 2025, 2032-2034) before either
background `saveClinicalNote` (line 2045) runs; the saves then run one
after the other, and `saveClinicalNote` does not re-check the guard. -/
def clinOverlappedTwice (notes : List CNote) (histLen : Nat)
    (g1 g2 : Option String) (ts : String) : List CNote :=
  let ok1 := clinGuard histLen notes
  let ok2 := clinGuard histLen notes
  let n1 := if ok1 then
      (match g1 with
       | some s => saveClinPure notes histLen s ts
       | none => notes)
    else notes
  if ok2 then
    (match g2 with
     | some s => saveClinPure n1 histLen s ts
     | none => n1)
  else n1

/-- Number of stored notes whose `turnCountAtGeneration` equals `c`. -/
def countAtCount (notes : List CNote) (c : Nat) : Nat :=
  (notes.filter (fun n => n.messageCount == c)).length

/-! ## The webhook turn as a state machine
(src/index.js lines 1940-2135 plus the storage helpers)

Sequential semantics: each background promise chain of a turn completes
before the next turn is processed.  The process-wide maps for one
conversation are the `...` fields and the durable KV copies are the
`kv...` fields (`none` = key absent / backend value missing); a `kv...Ok`
input flag models whether the corresponding `kv.set` succeeds (failures
are caught and logged, lines 2014-2016, 2469-2472, 2645-2647,
3059-3061). -/

structure SEngine where
  history : List Msg
  kvHistory : Option (List Msg)
  summaries : List (String × List SEntry)
  kvSummaries : Option (List (String × List SEntry))
  lastSummaryCount : Option Nat
  kvSummaryCount : Option Nat
  diary : List DEntry
  kvDiary : Option (List DEntry)
  lastDiaryDate : Option String
  kvDiaryDate : Option String
deriving DecidableEq, Repr

/-- A fresh process / fresh conversation. -/
def initE : SEngine :=
  ⟨[], none, [], none, none, none, [], none, none, none⟩

/-- The per-turn generation and persistence outcomes. -/
structure TurnInput where
  msg : Msg
  catResult : String
  sumResult : Option String
  diaryResult : Option String
  kvHistOk : Bool
  kvSumOk : Bool
  kvCountOk : Bool
  kvDiaryOk : Bool
  kvDiaryDateOk : Bool
deriving DecidableEq, Repr

/-- Start-of-webhook hydration (lines 1940-1961): `loadSummariesFromKV`
(lines 2671-2690) overwrites the summaries object and the summary
counter from KV when present; `loadDailyDiaryFromKV` (lines 3074-3091)
overwrites the diary when a non-empty list is stored and the diary date
when a truthy (non-empty) date is stored; `loadHistoryFromKV` (lines
2726-2746) overwrites the history when a non-empty list is stored.  The
loads are independent (each reads only its own key), so they are given
as simultaneous field updates. -/
def hydrate (st : SEngine) : SEngine :=
  { st with
    summaries := match st.kvSummaries with
      | some m => m
      | none => st.summaries
    lastSummaryCount := match st.kvSummaryCount with
      | some v => some v
      | none => st.lastSummaryCount
    diary := match st.kvDiary with
      | some l => if 0 < l.length then l else st.diary
      | none => st.diary
    lastDiaryDate := match st.kvDiaryDate with
      | some d => if d ≠ "" then some d else st.lastDiaryDate
      | none => st.lastDiaryDate
    history := match st.kvHistory with
      | some h => if 0 < h.length then h else st.history
      | none => st.history }

/-- `saveMessage` (lines 2427-2483): append with eviction at cap 50, then
best-effort persist of the resulting buffer. -/
def afterSave (st : SEngine) (m : Msg) (kvOk : Bool) : SEngine :=
  let h := pushEvict 50 st.history m
  { st with history := h, kvHistory := if kvOk then some h else st.kvHistory }

/-- The summary trigger (lines 1997-2022) together with
`saveConversationSummary` (lines 2603-2654).  The trigger compares the
current buffer length with `lastSummaryCount.get(chatId) || 0`.
`saveConversationSummary` returns without writing when fewer than 5
messages exist or when generation fails (`generateConversationSummary`
returns null, line 2612), but it catches every error, so the promise
always resolves and the `.then` handler (lines 2005-2017) sets the
counter to the current length in every fired case. -/
def summaryStep (st : SEngine) (inp : TurnInput) : SEngine :=
  let len := st.history.length
  let last := st.lastSummaryCount.getD 0
  if 0 < len ∧ last + 10 ≤ len then
    let st1 :=
      if len < 5 then st
      else
        match inp.sumResult with
        | none => st
        | some s =>
          let e : SEntry := ⟨s, inp.msg.date, len⟩
          let m' := setCat st.summaries inp.catResult
            (pushEvict 5 (getCat st.summaries inp.catResult) e)
          { st with summaries := m',
                    kvSummaries := if inp.kvSumOk then some m' else st.kvSummaries }
    { st1 with lastSummaryCount := some len,
               kvSummaryCount := if inp.kvCountOk then some len else st1.kvSummaryCount }
  else st

/-- The diary trigger (lines 2071-2135): fire when the remembered date
differs from today (including "no marker yet"); with a truthy previous
marker only today's messages are used, otherwise the whole buffer; on a
truthy generated entry, persist through `saveDailyDiaryEntry` and set the
date marker (lines 2102-2115). -/
def diaryStep (st : SEngine) (inp : TurnInput) : SEngine :=
  let today := inp.msg.date
  if st.lastDiaryDate ≠ some today ∧ 0 < st.history.length then
    let msgsToUse := match st.lastDiaryDate with
      | some d => if d ≠ "" then st.history.filter (fun m : Msg => m.date == today)
                  else st.history
      | none => st.history
    if 0 < msgsToUse.length then
      match inp.diaryResult with
      | some s =>
        if s ≠ "" then
          let d' := saveDiaryPure st.diary st.history.length s today today
          { st with diary := d',
                    kvDiary := if inp.kvDiaryOk then some d' else st.kvDiary,
                    lastDiaryDate := some today,
                    kvDiaryDate := if inp.kvDiaryDateOk then some today else st.kvDiaryDate }
        else st
      | none => st
    else st
  else st

/-- One whole webhook turn for one conversation (hydration, reply
generation and delivery — irrelevant to the stored state —, save,
summary trigger, diary trigger; the clinical-note trigger is modelled
separately above and touches none of these fields). -/
def webhookTurn (st : SEngine) (inp : TurnInput) : SEngine :=
  diaryStep (summaryStep (afterSave (hydrate st) inp.msg inp.kvHistOk) inp) inp

/-- A run of consecutive webhook turns from a fresh process. -/
def runEngine (inputs : List TurnInput) : SEngine :=
  inputs.foldl webhookTurn initE

/-- Whether the summary trigger condition at line 2001 fires on this
turn (evaluated, as in the code, after hydration and after the save). -/
def summaryFiredOnTurn (st : SEngine) (inp : TurnInput) : Bool :=
  let st1 := afterSave (hydrate st) inp.msg inp.kvHistOk
  decide (0 < st1.history.length ∧
          st1.lastSummaryCount.getD 0 + 10 ≤ st1.history.length)

/-- The trigger-fired trace of a run. -/
def runEvents (st : SEngine) : List TurnInput → List Bool
  | [] => []
  | i :: is => summaryFiredOnTurn st i :: runEvents (webhookTurn st i) is

/-- An all-successful turn (generation succeeds, every KV write
succeeds). -/
def okTurn : TurnInput :=
  ⟨⟨"u", "b", "2024-05-01"⟩, "Otros", some "resumen", none,
   true, true, true, true, true⟩

/-- A turn on which the summary generation fails (rate limit / timeout:
`generateConversationSummary` returns null). -/
def genFailTurn : TurnInput := { okTurn with sumResult := none }

/-- A turn on which the KV write of the summary counter fails. -/
def kvCountFailTurn : TurnInput := { okTurn with kvCountOk := false }

/-- Ordering on the diary-date marker: `none` precedes everything. -/
def optDateLe : Option String → Option String → Prop
  | none, _ => True
  | some _, none => False
  | some a, some b => a ≤ b

/-- The in-memory marker copies match their durable copies (holds
whenever every durable marker write so far succeeded). -/
def kvMarkersInSync (st : SEngine) : Prop :=
  st.kvSummaryCount = st.lastSummaryCount ∧ st.kvDiaryDate = st.lastDiaryDate

/-- State invariant of an all-successful run after `k` turns: the buffer
holds `min k 50` turns, the summary counter reads `10 * min (k/10) 5`,
and the durable copies mirror memory. -/
def summaryInv (k : Nat) (st : SEngine) : Prop :=
  st.history.length = min k 50 ∧
  st.lastSummaryCount.getD 0 = 10 * min (k / 10) 5 ∧
  (st.kvHistory = none ∧ st.history = [] ∨ st.kvHistory = some st.history) ∧
  st.kvSummaryCount = st.lastSummaryCount

/-! ## Lemmas -/

theorem pushEvict_foldl {α : Type} (cap : Nat) :
    ∀ (xs l0 : List α), l0.length ≤ cap →
      xs.foldl (pushEvict cap) l0 = (l0 ++ xs).drop (l0.length + xs.length - cap) := by
  intro xs
  induction xs with
  | nil =>
    intro l0 h
    simp [Nat.sub_eq_zero_of_le h]
  | cons a xs ih =>
    intro l0 h
    rw [List.foldl_cons]
    by_cases hlt : cap < l0.length + 1
    · have hpe : pushEvict cap l0 a = (l0 ++ [a]).drop 1 := by
        simp only [pushEvict]
        rw [if_pos (by simp; omega), List.drop_one]
      have hlen : ((l0 ++ [a]).drop 1).length ≤ cap := by
        simp; omega
      rw [hpe, ih _ hlen]
      have hidx1 : ((l0 ++ [a]).drop 1).length + xs.length - cap = xs.length := by
        simp; omega
      rw [hidx1]
      have e0 : (l0 ++ [a]) ++ xs = l0 ++ a :: xs := by simp
      have e1 : (l0 ++ [a]).drop 1 ++ xs = (l0 ++ a :: xs).drop 1 := by
        calc (l0 ++ [a]).drop 1 ++ xs
            = ((l0 ++ [a]) ++ xs).drop 1 :=
              (List.drop_append_of_le_length (by simp)).symm
          _ = (l0 ++ a :: xs).drop 1 := by rw [e0]
      rw [e1, List.drop_drop]
      have hidx2 : (1 : Nat) + xs.length = l0.length + (a :: xs).length - cap := by
        simp; omega
      rw [hidx2]
    · have hpe : pushEvict cap l0 a = l0 ++ [a] := by
        simp only [pushEvict]
        rw [if_neg (by simp; omega)]
      rw [hpe, ih _ (by simp; omega)]
      have e0 : (l0 ++ [a]) ++ xs = l0 ++ a :: xs := by simp
      rw [e0]
      have hidx : (l0 ++ [a]).length + xs.length - cap
          = l0.length + (a :: xs).length - cap := by
        simp; omega
      rw [hidx]

theorem getCat_setCat (m : List (String × List SEntry)) (c : String)
    (v : List SEntry) (c' : String) :
    getCat (setCat m c v) c' = if c = c' then v else getCat m c' := by
  induction m with
  | nil => by_cases h : c = c' <;> simp [setCat, getCat, h]
  | cons p r ih =>
    rcases p with ⟨k, w⟩
    by_cases hk : k = c
    · subst hk
      by_cases h : k = c' <;> simp [setCat, getCat, h]
    · by_cases h : k = c'
      · subst h
        have : ¬ c = k := fun hc => hk hc.symm
        simp [setCat, getCat, hk, this]
      · simp [setCat, getCat, hk, h, ih]

theorem getCat_summariesAfter (passes : List (String × SEntry)) (c : String) :
    ∀ m, getCat (passes.foldl
        (fun m p => setCat m p.1 (pushEvict 5 (getCat m p.1) p.2)) m) c =
      (entriesOf passes c).foldl (pushEvict 5) (getCat m c) := by
  induction passes with
  | nil => intro m; simp [entriesOf]
  | cons p ps ih =>
    intro m
    rcases p with ⟨pc, pe⟩
    by_cases h : pc = c
    · subst h
      rw [List.foldl_cons, ih]
      simp [entriesOf, getCat_setCat]
    · rw [List.foldl_cons, ih]
      have hbeq : (pc == c) = false := by
        simp [h]
      simp [entriesOf, getCat_setCat, h, hbeq]

/-! ## C7 and C8 -/

/-- C7: for every conversation and any sequence of appends through
`saveMessage`, the history buffer holds at most `H = 50` turns, and is
exactly the 50 most recent appended turns in insertion order (the oldest
is evicted first). -/
theorem history_bound_and_content (msgs : List Msg) :
    (historyAfter msgs).length ≤ 50 ∧
    historyAfter msgs = msgs.drop (msgs.length - 50) := by
  have h := pushEvict_foldl 50 msgs [] (by simp)
  simp only [List.nil_append, List.length_nil, Nat.zero_add] at h
  refine ⟨?_, h⟩
  rw [historyAfter, h, List.length_drop]
  omega

/-- C8: for every category, after any number of successful summarizer
passes the stored list under that category has length at most `K = 5`
and consists of the 5 most recently appended entries for that category
(the oldest evicted first). -/
theorem category_cap (passes : List (String × SEntry)) (c : String) :
    (getCat (summariesAfter passes) c).length ≤ 5 ∧
    getCat (summariesAfter passes) c =
      (entriesOf passes c).drop ((entriesOf passes c).length - 5) := by
  have h := getCat_summariesAfter passes c []
  rw [summariesAfter]
  rw [h]
  simp only [getCat]
  have h2 := pushEvict_foldl 5 (entriesOf passes c) [] (by simp)
  simp only [List.nil_append, List.length_nil, Nat.zero_add] at h2
  refine ⟨?_, h2⟩
  rw [h2, List.length_drop]
  omega

/-! ## Diary lemmas -/

theorem sortDesc_perm (l : List DEntry) : List.Perm (sortDesc l) l :=
  List.perm_insertionSort _ l

theorem countDate_sortDesc (l : List DEntry) (d : String) :
    countDate (sortDesc l) d = countDate l d := by
  unfold countDate
  exact ((sortDesc_perm l).filter _).length_eq

theorem nodup_datesOf_sortDesc (l : List DEntry)
    (h : (datesOf l).Nodup) : (datesOf (sortDesc l)).Nodup := by
  unfold datesOf
  exact (((sortDesc_perm l).map DEntry.date).nodup_iff).mpr h

theorem upsert_cons_pos (e x : DEntry) (xs : List DEntry)
    (h : (x.date == e.date) = true) :
    upsertByDate e (x :: xs) = e :: xs := by
  show (if (x.date == e.date) = true then e :: xs else x :: upsertByDate e xs) = e :: xs
  rw [if_pos h]

theorem upsert_cons_neg (e x : DEntry) (xs : List DEntry)
    (h : ¬ (x.date == e.date) = true) :
    upsertByDate e (x :: xs) = x :: upsertByDate e xs := by
  show (if (x.date == e.date) = true then e :: xs else x :: upsertByDate e xs)
      = x :: upsertByDate e xs
  rw [if_neg h]

theorem filter_cons_pos {p : DEntry → Bool} (x : DEntry) (xs : List DEntry)
    (h : p x = true) : (x :: xs).filter p = x :: xs.filter p := by
  rw [List.filter_cons, if_pos h]

theorem filter_cons_neg {p : DEntry → Bool} (x : DEntry) (xs : List DEntry)
    (h : ¬ p x = true) : (x :: xs).filter p = xs.filter p := by
  rw [List.filter_cons, if_neg h]

theorem mem_upsert_self (e : DEntry) (l : List DEntry) :
    e ∈ upsertByDate e l := by
  induction l with
  | nil => simp [upsertByDate]
  | cons x xs ih =>
    by_cases h : (x.date == e.date) = true
    · rw [upsert_cons_pos e x xs h]
      exact List.mem_cons_self e xs
    · rw [upsert_cons_neg e x xs h]
      exact List.mem_cons_of_mem x ih

theorem countDate_upsert_self (e : DEntry) (l : List DEntry) :
    countDate (upsertByDate e l) e.date = max (countDate l e.date) 1 := by
  induction l with
  | nil => simp [upsertByDate, countDate]
  | cons x xs ih =>
    by_cases h : (x.date == e.date) = true
    · rw [upsert_cons_pos e x xs h]
      unfold countDate
      rw [filter_cons_pos e xs (by simp), filter_cons_pos x xs h]
      simp only [List.length_cons]
      omega
    · rw [upsert_cons_neg e x xs h]
      unfold countDate at ih ⊢
      rw [filter_cons_neg x _ h, filter_cons_neg x _ h]
      exact ih

theorem countDate_upsert_ne (e : DEntry) (l : List DEntry) (d : String)
    (hd : d ≠ e.date) : countDate (upsertByDate e l) d = countDate l d := by
  have hed : ¬ (e.date == d) = true := by
    simp
    exact fun hh => hd hh.symm
  induction l with
  | nil =>
    unfold upsertByDate countDate
    rw [filter_cons_neg e [] hed]
  | cons x xs ih =>
    by_cases h : (x.date == e.date) = true
    · have hx : x.date = e.date := by simpa using h
      have hxb : ¬ (x.date == d) = true := by
        simp [hx]
        exact fun hh => hd hh.symm
      rw [upsert_cons_pos e x xs h]
      unfold countDate
      rw [filter_cons_neg e xs hed, filter_cons_neg x xs hxb]
    · rw [upsert_cons_neg e x xs h]
      unfold countDate at ih ⊢
      by_cases hx : (x.date == d) = true
      · rw [filter_cons_pos x _ hx, filter_cons_pos x _ hx]
        simp only [List.length_cons]
        omega
      · rw [filter_cons_neg x _ hx, filter_cons_neg x _ hx]
        exact ih

theorem mem_datesOf_upsert (e : DEntry) (l : List DEntry) (d : String)
    (h : d ∈ datesOf (upsertByDate e l)) : d = e.date ∨ d ∈ datesOf l := by
  induction l with
  | nil =>
    simp only [upsertByDate, datesOf, List.map_cons, List.map_nil,
      List.mem_singleton] at h
    exact Or.inl h
  | cons x xs ih =>
    by_cases hx : (x.date == e.date) = true
    · rw [upsert_cons_pos e x xs hx] at h
      simp only [datesOf, List.map_cons, List.mem_cons] at h
      simp only [datesOf, List.map_cons, List.mem_cons]
      rcases h with h | h
      · exact Or.inl h
      · exact Or.inr (Or.inr h)
    · rw [upsert_cons_neg e x xs hx] at h
      simp only [datesOf, List.map_cons, List.mem_cons] at h
      simp only [datesOf, List.map_cons, List.mem_cons]
      rcases h with h | h
      · exact Or.inr (Or.inl h)
      · rcases ih h with h2 | h2
        · exact Or.inl h2
        · exact Or.inr (Or.inr h2)

theorem nodup_datesOf_upsert (e : DEntry) (l : List DEntry)
    (h : (datesOf l).Nodup) : (datesOf (upsertByDate e l)).Nodup := by
  induction l with
  | nil => simp [upsertByDate, datesOf]
  | cons x xs ih =>
    simp only [datesOf, List.map_cons, List.nodup_cons] at h
    by_cases hx : (x.date == e.date) = true
    · have hxe : x.date = e.date := by simpa using hx
      rw [upsert_cons_pos e x xs hx]
      simp only [datesOf, List.map_cons, List.nodup_cons]
      constructor
      · rw [← hxe]
        exact fun hmem => h.1 hmem
      · exact h.2
    · have hxe : x.date ≠ e.date := by simpa using hx
      rw [upsert_cons_neg e x xs hx]
      simp only [datesOf, List.map_cons, List.nodup_cons]
      refine ⟨fun hmem => ?_, ih h.2⟩
      rcases mem_datesOf_upsert e xs x.date hmem with h2 | h2
      · exact hxe h2
      · exact h.1 h2

theorem countDate_le_one_of_nodup (l : List DEntry) (d : String)
    (h : (datesOf l).Nodup) : countDate l d ≤ 1 := by
  induction l with
  | nil => simp [countDate]
  | cons x xs ih =>
    simp only [datesOf, List.map_cons, List.nodup_cons] at h
    by_cases hx : (x.date == d) = true
    · have hxd : x.date = d := by simpa using hx
      have hzero : (xs.filter (fun e : DEntry => e.date == d)).length = 0 := by
        rw [List.length_eq_zero, List.filter_eq_nil_iff]
        intro e he hed
        have hedd : e.date = d := by simpa using hed
        refine h.1 ?_
        rw [List.mem_map]
        exact ⟨e, he, by rw [hedd, hxd]⟩
      unfold countDate
      rw [filter_cons_pos x xs hx]
      simp only [List.length_cons, hzero]
      omega
    · unfold countDate
      rw [filter_cons_neg x xs hx]
      exact ih h.2

theorem nodup_datesOf_saveDiary (l : List DEntry) (hl : Nat)
    (s d ts : String) (h : (datesOf l).Nodup) :
    (datesOf (saveDiaryPure l hl s d ts)).Nodup := by
  unfold saveDiaryPure
  by_cases hs : s = ""
  · simpa [hs]
  · rw [if_neg hs]
    exact nodup_datesOf_sortDesc _ (nodup_datesOf_upsert _ _ h)

theorem countDate_saveDiary_self (l : List DEntry) (hl : Nat)
    (s d ts : String) (hs : s ≠ "") :
    countDate (saveDiaryPure l hl s d ts) d = max (countDate l d) 1 := by
  unfold saveDiaryPure
  rw [if_neg hs, countDate_sortDesc]
  exact countDate_upsert_self ⟨d, s, ts, hl⟩ l

theorem filter_singleton_of_mem {p : DEntry → Bool} {l : List DEntry} {x : DEntry}
    (hlen : (l.filter p).length = 1) (hx : x ∈ l.filter p) : l.filter p = [x] := by
  rcases hfe : l.filter p with _ | ⟨a, rest⟩
  · rw [hfe] at hx; simp at hx
  · rw [hfe] at hlen hx
    rcases rest with _ | ⟨b, r2⟩
    · simp at hx; simp [hx]
    · simp at hlen

/-! ## C6 and C10 -/

/-- C6: diary generation is an upsert keyed by calendar date.  Any
sequence of `saveDailyDiaryEntry` calls starting from an empty diary
keeps the dates free of duplicates, and saving twice for the same date
from any duplicate-free diary leaves exactly one entry for that date,
whose content is that of the later save. -/
theorem diary_upsert_per_date :
    (∀ runs : List (String × String × Nat × String),
      (datesOf (diaryRuns [] runs)).Nodup) ∧
    (∀ (l : List DEntry) (h1 h2 : Nat) (s1 s2 d t1 t2 : String),
      (datesOf l).Nodup → s1 ≠ "" → s2 ≠ "" →
      countDate (saveDiaryPure (saveDiaryPure l h1 s1 d t1) h2 s2 d t2) d = 1 ∧
      (saveDiaryPure (saveDiaryPure l h1 s1 d t1) h2 s2 d t2).filter
          (fun e => e.date == d) = [⟨d, s2, t2, h2⟩]) := by
  constructor
  · have key : ∀ (runs : List (String × String × Nat × String)) (l : List DEntry),
        (datesOf l).Nodup → (datesOf (diaryRuns l runs)).Nodup := by
      intro runs
      induction runs with
      | nil => intro l h; simpa [diaryRuns] using h
      | cons r rs ih =>
        intro l h
        exact ih _ (nodup_datesOf_saveDiary _ _ _ _ _ h)
    intro runs
    exact key runs [] (by simp [datesOf])
  · intro l h1 h2 s1 s2 d t1 t2 hnd hs1 hs2
    have hc1 : countDate (saveDiaryPure l h1 s1 d t1) d = 1 := by
      rw [countDate_saveDiary_self l h1 s1 d t1 hs1]
      have := countDate_le_one_of_nodup l d hnd
      omega
    have hc2 : countDate (saveDiaryPure (saveDiaryPure l h1 s1 d t1) h2 s2 d t2) d = 1 := by
      rw [countDate_saveDiary_self _ h2 s2 d t2 hs2, hc1]
      simp
    refine ⟨hc2, ?_⟩
    have hmem : (⟨d, s2, t2, h2⟩ : DEntry) ∈
        saveDiaryPure (saveDiaryPure l h1 s1 d t1) h2 s2 d t2 := by
      unfold saveDiaryPure
      rw [if_neg hs2]
      exact ((sortDesc_perm _).mem_iff).mpr (mem_upsert_self _ _)
    have hmf : (⟨d, s2, t2, h2⟩ : DEntry) ∈
        (saveDiaryPure (saveDiaryPure l h1 s1 d t1) h2 s2 d t2).filter
          (fun e => e.date == d) := by
      rw [List.mem_filter]
      exact ⟨hmem, by simp⟩
    exact filter_singleton_of_mem hc2 hmf

/-- Closed witness for the hypotheses of `diary_upsert_per_date`. -/
theorem diary_upsert_per_date_w :
    countDate (saveDiaryPure (saveDiaryPure [] 1 "a" "2024-05-01" "t1")
      2 "b" "2024-05-01" "t2") "2024-05-01" = 1 ∧
    (saveDiaryPure (saveDiaryPure [] 1 "a" "2024-05-01" "t1")
      2 "b" "2024-05-01" "t2").filter
        (fun e => e.date == "2024-05-01") = [⟨"2024-05-01", "b", "t2", 2⟩] :=
  diary_upsert_per_date.2 [] 1 2 "a" "b" "2024-05-01" "t1" "t2"
    (by simp [datesOf]) (by decide) (by decide)

/-- C10: after every successful diary save the stored list (what
`getDailyDiary` returns) is sorted by date in descending order — the
sort at line 3051 re-establishes the ordering on every upsert. -/
theorem diary_sorted_desc (l : List DEntry) (hl : Nat) (s d ts : String)
    (hs : s ≠ "") :
    List.Sorted (fun a b : DEntry => b.date ≤ a.date)
      (saveDiaryPure l hl s d ts) := by
  unfold saveDiaryPure
  rw [if_neg hs]
  exact List.sorted_insertionSort _ _

/-- Closed witness for the hypothesis of `diary_sorted_desc`. -/
theorem diary_sorted_desc_w :
    List.Sorted (fun a b : DEntry => b.date ≤ a.date)
      (saveDiaryPure [⟨"2024-04-30", "x", "t", 1⟩] 3 "a" "2024-05-01" "ts") := by
  have h := diary_sorted_desc [⟨"2024-04-30", "x", "t", 1⟩] 3 "a" "2024-05-01" "ts"
    (by decide)
  exact h

/-! ## Clinical-note lemmas -/

theorem any_count_false (notes : List CNote) (c : Nat)
    (h : countAtCount notes c = 0) :
    notes.any (fun n => n.messageCount == c) = false := by
  rw [List.any_eq_false]
  intro x hx hpx
  have hmem : x ∈ notes.filter (fun n => n.messageCount == c) :=
    List.mem_filter.mpr ⟨hx, hpx⟩
  unfold countAtCount at h
  rw [List.length_eq_zero] at h
  rw [h] at hmem
  simp at hmem

theorem clinGuard_true (notes : List CNote) (len : Nat)
    (h10 : 10 ≤ len) (hmod : len % 10 = 0) (hzero : countAtCount notes len = 0) :
    clinGuard len notes = true := by
  unfold clinGuard
  rw [any_count_false notes len hzero]
  simp [h10, hmod]

theorem countAtCount_append (notes : List CNote) (nn : CNote) (c : Nat) :
    countAtCount (notes ++ [nn]) c
      = countAtCount notes c + countAtCount [nn] c := by
  unfold countAtCount
  rw [List.filter_append, List.length_append]

theorem clinGuard_false_after (notes : List CNote) (len : Nat) (nn : CNote)
    (hn : nn.messageCount = len) :
    clinGuard len (notes ++ [nn]) = false := by
  unfold clinGuard
  have hany : (notes ++ [nn]).any (fun n => n.messageCount == len) = true := by
    rw [List.any_eq_true]
    exact ⟨nn, by simp, by simp [hn]⟩
  rw [hany]
  simp

/-! ## C3 -/

/-- C3 counterexample: the guard is NOT re-checked inside
`saveClinicalNote`, so two overlapping trigger executions at the same
turn count — both evaluating the guard before either persists, the
schedule the fire-and-forget background design permits — persist two
clinical notes with the same `turnCountAtGeneration`. -/
theorem clinical_overlap_two_notes :
    countAtCount (clinOverlappedTwice [] 10 (some "nota a") (some "nota b") "t") 10 = 2 := by
  decide

/-- C3 amended: the guard is evaluated only before generation starts
(line 2032); `saveClinicalNote` persists without re-checking.  Running
the trigger logic twice sequentially at the same count still yields
exactly one note with that `turnCountAtGeneration` — the second run's
guard sees the persisted note — but overlapping runs are not protected
(see the counterexample). -/
theorem clinical_sequential_idempotent (notes : List CNote) (len : Nat)
    (s1 : String) (g2 : Option String) (t1 t2 : String)
    (h10 : 10 ≤ len) (hmod : len % 10 = 0) (hs1 : s1 ≠ "")
    (hzero : countAtCount notes len = 0) :
    countAtCount (clinTriggerOnce (clinTriggerOnce notes len (some s1) t1)
      len g2 t2) len = 1 := by
  have hg1 : clinGuard len notes = true := clinGuard_true notes len h10 hmod hzero
  have h1 : clinTriggerOnce notes len (some s1) t1
      = notes ++ [⟨s1, t1, notes.length + 1, len⟩] := by
    unfold clinTriggerOnce
    rw [if_pos hg1]
    show saveClinPure notes len s1 t1 = _
    unfold saveClinPure
    rw [if_neg hs1]
  have hcount1 : countAtCount (notes ++ [⟨s1, t1, notes.length + 1, len⟩]) len = 1 := by
    rw [countAtCount_append, hzero]
    simp [countAtCount]
  have hg2 : clinGuard len (notes ++ [⟨s1, t1, notes.length + 1, len⟩]) = false :=
    clinGuard_false_after notes len _ rfl
  rw [h1]
  unfold clinTriggerOnce
  rw [hg2]
  simp only [Bool.false_eq_true, if_false]
  exact hcount1

/-- Closed witness for the hypotheses of
`clinical_sequential_idempotent`. -/
theorem clinical_sequential_idempotent_w :
    countAtCount (clinTriggerOnce (clinTriggerOnce [] 10 (some "nota") "t1")
      10 (some "otra") "t2") 10 = 1 :=
  clinical_sequential_idempotent [] 10 "nota" (some "otra") "t1" "t2"
    (by decide) (by decide) (by decide) (by decide)

/-! ## Sanitizer lemmas -/

theorem mem_trimL {a : Char} : ∀ {s : List Char}, a ∈ trimL s → a ∈ s := by
  intro s
  induction s with
  | nil => intro h; exact h
  | cons c r ih =>
    intro h
    by_cases hw : isJsWs c = true
    · simp only [trimL, hw, if_true] at h
      exact List.mem_cons_of_mem c (ih h)
    · simp only [trimL, hw, if_false] at h
      exact h

theorem mem_trim {a : Char} {s : List Char} (h : a ∈ trim s) : a ∈ s := by
  unfold trim at h
  have h1 : a ∈ (trimL s.reverse).reverse := mem_trimL h
  rw [List.mem_reverse] at h1
  have h2 : a ∈ s.reverse := mem_trimL h1
  rwa [List.mem_reverse] at h2

theorem mem_genericStep {a : Char} (m : List Char → Option Nat)
    {s : List Char} (h : a ∈ genericStep m s) : a ∈ s := by
  unfold genericStep at h
  rcases hm : m s with _ | n
  · rwa [hm] at h
  · rw [hm] at h
    exact List.mem_of_mem_drop (mem_trim h)

theorem mem_genericStrip {a : Char} {s : List Char}
    (h : a ∈ genericStrip s) : a ∈ s := by
  unfold genericStrip at h
  exact mem_genericStep _ (mem_genericStep _ (mem_genericStep _
    (mem_genericStep _ (mem_genericStep _ (mem_genericStep _ h)))))

theorem replaceScanF_id (f : List Char → Option Nat) (repl : List Char)
    (hf : ∀ c r, c ≠ emojiC → f (c :: r) = none) :
    ∀ fuel s, emojiC ∉ s → replaceScanF f repl fuel s = s := by
  intro fuel
  induction fuel with
  | zero =>
    intro s _
    cases s <;> rfl
  | succ f2 ih =>
    intro s hs
    cases s with
    | nil => rfl
    | cons c r =>
      have hc : c ≠ emojiC := by
        intro he
        exact hs (he ▸ List.mem_cons_self c r)
      have hr : emojiC ∉ r := fun hm => hs (List.mem_cons_of_mem c hm)
      simp only [replaceScanF, hf c r hc]
      rw [ih r hr]

theorem replaceScan_id (f : List Char → Option Nat) (repl : List Char)
    (hf : ∀ c r, c ≠ emojiC → f (c :: r) = none)
    (s : List Char) (hs : emojiC ∉ s) : replaceScan f repl s = s :=
  replaceScanF_id f repl hf s.length s hs

theorem findEmojiLit_none (lit : List Char) :
    ∀ c r, c ≠ emojiC → findEmojiLit lit (c :: r) = none := by
  intro c r hc
  simp [findEmojiLit, hc]

theorem findEmojiWsLit_none (lit : List Char) :
    ∀ c r, c ≠ emojiC → findEmojiWsLit lit (c :: r) = none := by
  intro c r hc
  simp [findEmojiWsLit, hc]

theorem findSigLine_none :
    ∀ c r, c ≠ emojiC → findSigLine (c :: r) = none := by
  intro c r hc
  simp [findSigLine, hc]

theorem emoji_ne_nl : emojiC ≠ nlC := by decide

theorem emoji_not_mem_collapseF :
    ∀ fuel s, emojiC ∉ s → emojiC ∉ collapseF fuel s := by
  intro fuel
  induction fuel with
  | zero =>
    intro s hs
    cases s with
    | nil => simp [collapseF]
    | cons c r => exact hs
  | succ f2 ih =>
    intro s hs
    cases s with
    | nil => simp [collapseF]
    | cons c r =>
      have hc : c ≠ emojiC := by
        intro he
        exact hs (he ▸ List.mem_cons_self c r)
      have hr : emojiC ∉ r := fun hm => hs (List.mem_cons_of_mem c hm)
      by_cases hnl : c = nlC
      · by_cases hk : nlRun r + 1 ≥ 3
        · simp only [collapseF, hnl, if_pos rfl, if_pos hk]
          intro hmem
          rcases List.mem_cons.mp hmem with h1 | hmem2
          · exact emoji_ne_nl h1
          · rcases List.mem_cons.mp hmem2 with h2 | hmem3
            · exact emoji_ne_nl h2
            · have : emojiC ∉ List.drop (nlRun r) r :=
                fun hd => hr (List.mem_of_mem_drop hd)
              exact ih _ this hmem3
        · simp only [collapseF, hnl, if_pos rfl, if_neg hk]
          intro hmem
          rcases List.mem_cons.mp hmem with h1 | hmem2
          · exact emoji_ne_nl h1
          · exact ih r hr hmem2
      · simp only [collapseF, if_neg hnl]
        intro hmem
        rcases List.mem_cons.mp hmem with h1 | hmem2
        · exact hc h1.symm
        · exact ih r hr hmem2

theorem emoji_not_mem_collapse {s : List Char} (hs : emojiC ∉ s) :
    emojiC ∉ collapse s :=
  emoji_not_mem_collapseF s.length s hs

theorem searchAny_false (f : List Char → Option Nat)
    (hf : ∀ c r, c ≠ emojiC → f (c :: r) = none) (hnil : f [] = none) :
    ∀ s, emojiC ∉ s → searchAny f s = false := by
  intro s
  induction s with
  | nil =>
    intro _
    simp [searchAny, hnil]
  | cons c r ih =>
    intro hs
    have hc : c ≠ emojiC := by
      intro he
      exact hs (he ▸ List.mem_cons_self c r)
    have hr : emojiC ∉ r := fun hm => hs (List.mem_cons_of_mem c hm)
    simp [searchAny, hf c r hc, ih hr]

theorem countSub_emoji_free (pt : List Char) :
    ∀ u, emojiC ∉ u → countSub (emojiC :: pt) u = 0 := by
  intro u
  induction u with
  | nil => intro _; simp [countSub, List.isPrefixOf]
  | cons c r ih =>
    intro hu
    have hc : c ≠ emojiC := by
      intro he
      exact hu (he ▸ List.mem_cons_self c r)
    have hr : emojiC ∉ r := fun hm => hu (List.mem_cons_of_mem c hm)
    have hpre : (emojiC :: pt).isPrefixOf (c :: r) = false := by
      simp [List.isPrefixOf]
      intro he
      exact absurd he.symm hc
    simp [countSub, hpre, ih hr]

theorem countSub_self_once (pt : List Char) (hpt : emojiC ∉ pt) :
    countSub (emojiC :: pt) (emojiC :: pt) = 1 := by
  have hpre : (emojiC :: pt).isPrefixOf (emojiC :: pt) = true := by
    rw [ List.isPrefixOf_iff_prefix]
  simp [countSub, hpre, countSub_emoji_free pt pt hpt]

theorem countSub_concat (pt : List Char) (hpt : emojiC ∉ pt) :
    ∀ t, emojiC ∉ t → countSub (emojiC :: pt) (t ++ emojiC :: pt) = 1 := by
  intro t
  induction t with
  | nil => intro _; simpa using countSub_self_once pt hpt
  | cons c r ih =>
    intro ht
    have hc : c ≠ emojiC := by
      intro he
      exact ht (he ▸ List.mem_cons_self c r)
    have hr : emojiC ∉ r := fun hm => ht (List.mem_cons_of_mem c hm)
    have hpre : ¬ ((emojiC :: pt).isPrefixOf (c :: (r ++ emojiC :: pt)) = true) := by
      simp [List.isPrefixOf]
      intro he
      exact absurd he.symm hc
    show (if (emojiC :: pt).isPrefixOf (c :: (r ++ emojiC :: pt)) = true then 1 else 0)
        + countSub (emojiC :: pt) (r ++ emojiC :: pt) = 1
    rw [if_neg hpre]
    simpa using ih hr

theorem sigOf_head (ver : List Char) :
    sigOf ver = emojiC :: (" El Rincón de Patri ".toList ++ ver) := by
  unfold sigOf
  have h : ("💬 El Rincón de Patri ".toList)
      = emojiC :: " El Rincón de Patri ".toList := by decide
  rw [h, List.cons_append]

theorem emoji_not_mem_sigTail (ver : List Char) (hv : emojiC ∉ ver) :
    emojiC ∉ (" El Rincón de Patri ".toList ++ ver) := by
  rw [List.mem_append]
  rintro (h | h)
  · revert h; decide
  · exact hv h

/-- For an input free of the 💬 character, the whole sanitizer is
"clean the text, then append the signature": every signature-removal
stage is the identity and the final presence test fails. -/
theorem sanitize_emoji_free_eq (ver s : List Char) (hs : emojiC ∉ s) :
    ∃ t, emojiC ∉ t ∧ sanitize ver s = t ++ nlC :: nlC :: sigOf ver := by
  have h0 : emojiC ∉ trim s := fun hm => hs (mem_trim hm)
  have hfb : emojiC ∉ emptyFallback := by decide
  have h1 : emojiC ∉ (if (trim s).isEmpty then emptyFallback else trim s) := by
    by_cases he : (trim s).isEmpty <;> simp [he, hfb, h0]
  have h2 : emojiC ∉ genericStrip (if (trim s).isEmpty then emptyFallback else trim s) :=
    fun hm => h1 (mem_genericStrip hm)
  refine ⟨trim (collapse (genericStrip
    (if (trim s).isEmpty then emptyFallback else trim s))), ?_, ?_⟩
  · exact fun hm => emoji_not_mem_collapse h2 (mem_trim hm)
  · have h9 : emojiC ∉ trim (collapse (genericStrip
        (if (trim s).isEmpty then emptyFallback else trim s))) :=
      fun hm => emoji_not_mem_collapse h2 (mem_trim hm)
    show sanitize ver s = _
    simp only [sanitize]
    rw [replaceScan_id _ _ (findEmojiLit_none _) _ h2,
        replaceScan_id _ _ (findEmojiLit_none _) _ h2,
        replaceScan_id _ _ (findEmojiLit_none _) _ h2,
        replaceScan_id _ _ (findEmojiWsLit_none _) _ h2,
        replaceScan_id _ _ (findEmojiWsLit_none _) _ h2,
        replaceScan_id _ _ findSigLine_none _ h2]
    have htest : hasSig (trim (collapse (genericStrip
        (if (trim s).isEmpty then emptyFallback else trim s)))) = false := by
      unfold hasSig
      exact searchAny_false _ (findEmojiWsLit_none _) rfl _ h9
    rw [htest]
    simp

/-! ## C4 and C5 -/

/-- C4 counterexample: the global signature removals scan the original
string without rescanning, so deleting `💬  El Rincón de Patri x` (two
spaces, hence missed by the literal pass) splices the preceding `💬`
against the following line, the final presence test then matches across
the newline, and the line-rewrite branch plants the signature before the
remaining text: the output does not end with the signature. -/
theorem sanitizer_sig_not_at_end :
    sanitize verDefault ("💬💬  El Rincón de Patri x\nEl Rincón de Patri y\nz".toList)
      = ("💬 El Rincón de Patri V.1.1\nz").toList ∧
    ¬ List.IsSuffix (sigOf verDefault)
        (sanitize verDefault
          ("💬💬  El Rincón de Patri x\nEl Rincón de Patri y\nz".toList)) := by
  constructor
  · decide
  · decide

/-- C4 amended: for every raw reply in which the 💬 character does not
occur, the sanitizer's output contains the current-format signature
exactly once, and that occurrence is at the end (the signature is
appended after cleaning).  Replies that already contain 💬 can defeat
the invariant (see the counterexample). -/
theorem sanitize_sig_once_at_end (ver s : List Char)
    (hv : emojiC ∉ ver) (hs : emojiC ∉ s) :
    countSub (sigOf ver) (sanitize ver s) = 1 ∧
    List.IsSuffix (sigOf ver) (sanitize ver s) := by
  obtain ⟨t, ht, heq⟩ := sanitize_emoji_free_eq ver s hs
  rw [heq]
  have htail := emoji_not_mem_sigTail ver hv
  constructor
  · rw [sigOf_head ver]
    have ht2 : emojiC ∉ t ++ [nlC, nlC] := by
      rw [List.mem_append]
      rintro (h | h)
      · exact ht h
      · simp at h
        exact emoji_ne_nl h
    have hre : t ++ nlC :: nlC :: (emojiC :: (" El Rincón de Patri ".toList ++ ver))
        = (t ++ [nlC, nlC]) ++ emojiC :: (" El Rincón de Patri ".toList ++ ver) := by
      simp
    rw [hre]
    exact countSub_concat _ htail _ ht2
  · exact ⟨t ++ [nlC, nlC], by simp⟩

/-- Closed witness for the hypotheses of `sanitize_sig_once_at_end`. -/
theorem sanitize_sig_once_at_end_w :
    countSub (sigOf verDefault) (sanitize verDefault ("Hola".toList)) = 1 ∧
    List.IsSuffix (sigOf verDefault) (sanitize verDefault ("Hola".toList)) :=
  sanitize_sig_once_at_end verDefault ("Hola".toList) (by decide) (by decide)

/-- C5 counterexample: the sanitizer is not idempotent — re-applying it
strips the just-appended signature (its literal is in the old-signature
removal list), leaving the bare version residue, and appends a fresh
signature. -/
theorem sanitizer_not_idempotent :
    sanitize verDefault (sanitize verDefault ("Hola".toList))
      ≠ sanitize verDefault ("Hola".toList) := by
  decide

/-- C5 amended: applying the sanitizer to its own output is not a no-op:
the second application removes the `💬 El Rincón de Patri` prefix of the
appended signature (that literal is among the removed "old signatures"),
leaves the ` V.1.1` residue in place, and appends a new signature at the
end, as the concrete run shows. -/
theorem sanitizer_double_apply :
    sanitize verDefault ("Hola".toList)
      = ("Hola\n\n💬 El Rincón de Patri V.1.1").toList ∧
    sanitize verDefault (sanitize verDefault ("Hola".toList))
      = ("Hola\n\n V.1.1\n\n💬 El Rincón de Patri V.1.1").toList := by
  constructor
  · decide
  · decide

/-! ## Engine-machine lemmas -/

theorem hydrate_kv_fields (st : SEngine) :
    (hydrate st).kvHistory = st.kvHistory ∧
    (hydrate st).kvSummaries = st.kvSummaries ∧
    (hydrate st).kvSummaryCount = st.kvSummaryCount ∧
    (hydrate st).kvDiary = st.kvDiary ∧
    (hydrate st).kvDiaryDate = st.kvDiaryDate := by
  simp [hydrate]

theorem hydrate_lastSummaryCount (st : SEngine)
    (h : st.kvSummaryCount = st.lastSummaryCount) :
    (hydrate st).lastSummaryCount = st.lastSummaryCount := by
  simp only [hydrate, h]
  cases st.lastSummaryCount <;> rfl

theorem hydrate_lastDiaryDate (st : SEngine)
    (h : st.kvDiaryDate = st.lastDiaryDate) :
    (hydrate st).lastDiaryDate = st.lastDiaryDate := by
  simp only [hydrate, h]
  rcases hld : st.lastDiaryDate with _ | d
  · rfl
  · by_cases hd : d ≠ "" <;> simp [hd]

theorem hydrate_history (st : SEngine)
    (h : st.kvHistory = none ∧ st.history = [] ∨ st.kvHistory = some st.history) :
    (hydrate st).history = st.history := by
  rcases h with ⟨h1, _⟩ | h1 <;> simp only [hydrate, h1]
  by_cases hl : 0 < st.history.length <;> simp [hl]

theorem afterSave_fields (st : SEngine) (m : Msg) (ok : Bool) :
    (afterSave st m ok).summaries = st.summaries ∧
    (afterSave st m ok).kvSummaries = st.kvSummaries ∧
    (afterSave st m ok).lastSummaryCount = st.lastSummaryCount ∧
    (afterSave st m ok).kvSummaryCount = st.kvSummaryCount ∧
    (afterSave st m ok).diary = st.diary ∧
    (afterSave st m ok).kvDiary = st.kvDiary ∧
    (afterSave st m ok).lastDiaryDate = st.lastDiaryDate ∧
    (afterSave st m ok).kvDiaryDate = st.kvDiaryDate := by
  simp [afterSave]

theorem afterSave_history (st : SEngine) (m : Msg) :
    (afterSave st m true).history = pushEvict 50 st.history m ∧
    (afterSave st m true).kvHistory = some (pushEvict 50 st.history m) := by
  simp [afterSave]

theorem summaryStep_untouched (st : SEngine) (inp : TurnInput) :
    (summaryStep st inp).history = st.history ∧
    (summaryStep st inp).kvHistory = st.kvHistory ∧
    (summaryStep st inp).diary = st.diary ∧
    (summaryStep st inp).kvDiary = st.kvDiary ∧
    (summaryStep st inp).lastDiaryDate = st.lastDiaryDate ∧
    (summaryStep st inp).kvDiaryDate = st.kvDiaryDate := by
  rcases hsr : inp.sumResult with _ | s <;>
    simp [summaryStep, hsr,
      apply_ite SEngine.history, apply_ite SEngine.kvHistory,
      apply_ite SEngine.diary, apply_ite SEngine.kvDiary,
      apply_ite SEngine.lastDiaryDate, apply_ite SEngine.kvDiaryDate]

theorem diaryStep_untouched (st : SEngine) (inp : TurnInput) :
    (diaryStep st inp).history = st.history ∧
    (diaryStep st inp).kvHistory = st.kvHistory ∧
    (diaryStep st inp).summaries = st.summaries ∧
    (diaryStep st inp).kvSummaries = st.kvSummaries ∧
    (diaryStep st inp).lastSummaryCount = st.lastSummaryCount ∧
    (diaryStep st inp).kvSummaryCount = st.kvSummaryCount := by
  rcases hdr : inp.diaryResult with _ | s <;>
    simp [diaryStep, hdr,
      apply_ite SEngine.history, apply_ite SEngine.kvHistory,
      apply_ite SEngine.summaries, apply_ite SEngine.kvSummaries,
      apply_ite SEngine.lastSummaryCount, apply_ite SEngine.kvSummaryCount]

theorem summaryStep_not_fired (st : SEngine) (inp : TurnInput)
    (hfire : ¬ (0 < st.history.length ∧
      st.lastSummaryCount.getD 0 + 10 ≤ st.history.length)) :
    summaryStep st inp = st := by
  unfold summaryStep
  rw [if_neg hfire]

theorem summaryStep_marker_value (st : SEngine) (inp : TurnInput)
    (hcok : inp.kvCountOk = true)
    (hfire : 0 < st.history.length ∧
      st.lastSummaryCount.getD 0 + 10 ≤ st.history.length) :
    (summaryStep st inp).lastSummaryCount = some st.history.length ∧
    (summaryStep st inp).kvSummaryCount = some st.history.length := by
  unfold summaryStep
  rw [if_pos hfire]
  rcases hsr : inp.sumResult with _ | s <;> simp [hsr, hcok]

theorem summaryStep_markers (st : SEngine) (inp : TurnInput)
    (hcok : inp.kvCountOk = true)
    (hsync : st.kvSummaryCount = st.lastSummaryCount) :
    (summaryStep st inp).kvSummaryCount = (summaryStep st inp).lastSummaryCount ∧
    st.lastSummaryCount.getD 0 ≤ (summaryStep st inp).lastSummaryCount.getD 0 := by
  by_cases hfire : 0 < st.history.length ∧
      st.lastSummaryCount.getD 0 + 10 ≤ st.history.length
  · obtain ⟨h1, h2⟩ := summaryStep_marker_value st inp hcok hfire
    rw [h1, h2]
    refine ⟨rfl, ?_⟩
    have := hfire.2
    simp
    omega
  · rw [summaryStep_not_fired st inp hfire]
    exact ⟨hsync, le_refl _⟩

theorem summaryStep_failed_fired (st : SEngine) (inp : TurnInput)
    (hfail : inp.sumResult = none)
    (hfire : 0 < st.history.length ∧
      st.lastSummaryCount.getD 0 + 10 ≤ st.history.length) :
    (summaryStep st inp).summaries = st.summaries ∧
    (summaryStep st inp).kvSummaries = st.kvSummaries ∧
    (summaryStep st inp).lastSummaryCount = some st.history.length := by
  unfold summaryStep
  rw [if_pos hfire]
  simp [hfail]

theorem length_pushEvict (l : List Msg) (a : Msg) (h : l.length ≤ 50) :
    (pushEvict 50 l a).length = min (l.length + 1) 50 := by
  unfold pushEvict
  by_cases hc : 50 < (l ++ [a]).length
  · rw [if_pos hc]
    simp at hc ⊢
    omega
  · rw [if_neg hc]
    simp at hc ⊢
    omega

theorem optDateLe_refl (o : Option String) : optDateLe o o := by
  cases o with
  | none => trivial
  | some d => exact le_refl d

theorem diaryStep_markers (st : SEngine) (inp : TurnInput)
    (hdok : inp.kvDiaryDateOk = true)
    (hsync : st.kvDiaryDate = st.lastDiaryDate)
    (hdate : ∀ d, st.lastDiaryDate = some d → d ≤ inp.msg.date) :
    (diaryStep st inp).kvDiaryDate = (diaryStep st inp).lastDiaryDate ∧
    optDateLe st.lastDiaryDate (diaryStep st inp).lastDiaryDate := by
  by_cases hfire : st.lastDiaryDate ≠ some inp.msg.date ∧ 0 < st.history.length
  · rcases hdr : inp.diaryResult with _ | s
    · have hres : diaryStep st inp = st := by
        simp only [diaryStep, hdr]
        rw [if_pos hfire, ite_self]
      rw [hres]
      exact ⟨hsync, optDateLe_refl _⟩
    · by_cases hs : s = ""
      · have hsne : ¬ (s ≠ "") := by simp [hs]
        have hres : diaryStep st inp = st := by
          simp only [diaryStep, hdr]
          rw [if_pos hfire, if_neg hsne, ite_self]
        rw [hres]
        exact ⟨hsync, optDateLe_refl _⟩
      · have hs2 : s ≠ "" := hs
        simp only [diaryStep, hdr]
        rw [if_pos hfire, if_pos hs2]
        constructor
        · split
          · simp [hdok]
          · exact hsync
        · split
          · rcases hld : st.lastDiaryDate with _ | d
            · exact trivial
            · exact hdate d hld
          · exact optDateLe_refl _
  · have hres : diaryStep st inp = st := by
      unfold diaryStep
      rw [if_neg hfire]
    rw [hres]
    exact ⟨hsync, optDateLe_refl _⟩

/-! ## C9 -/

/-- C9 counterexample: markers can move backward.  Run 20 all-successful
turns except that the durable write of the summary counter fails on turn
20: memory holds 20 but KV still holds 10; the hydration performed at
the start of the next webhook turn overwrites the in-memory marker with
the KV value, a write that stores 10 < 20. -/
theorem summary_marker_backward_on_hydrate :
    (runEngine (List.replicate 19 okTurn ++ [kvCountFailTurn])).lastSummaryCount
      = some 20 ∧
    (hydrate (runEngine (List.replicate 19 okTurn ++ [kvCountFailTurn]))).lastSummaryCount
      = some 10 := by
  constructor
  · decide
  · decide

/-- C9 amended: trigger passes themselves never move a marker backward,
and hydration is harmless as long as the durable marker copies match
memory — which every successful durable marker write maintains.  So
across any run in which the durable marker writes succeed and the
calendar date never decreases, both `lastSummaryMarker` and
`lastDiaryMarker` are monotone; only hydration after a failed durable
marker write can move one backward (see the counterexample). -/
theorem markers_monotone_turn (st : SEngine) (inp : TurnInput)
    (hsync : kvMarkersInSync st)
    (hcok : inp.kvCountOk = true) (hdok : inp.kvDiaryDateOk = true)
    (hdate : ∀ d, st.lastDiaryDate = some d → d ≤ inp.msg.date) :
    kvMarkersInSync (webhookTurn st inp) ∧
    st.lastSummaryCount.getD 0 ≤ (webhookTurn st inp).lastSummaryCount.getD 0 ∧
    optDateLe st.lastDiaryDate (webhookTurn st inp).lastDiaryDate := by
  obtain ⟨hs1, hs2⟩ := hsync
  have hAkv := hydrate_kv_fields st
  have hAsc : (hydrate st).lastSummaryCount = st.lastSummaryCount :=
    hydrate_lastSummaryCount st hs1
  have hAdd : (hydrate st).lastDiaryDate = st.lastDiaryDate :=
    hydrate_lastDiaryDate st hs2
  have hBf := afterSave_fields (hydrate st) inp.msg inp.kvHistOk
  have hBsc : (afterSave (hydrate st) inp.msg inp.kvHistOk).lastSummaryCount
      = st.lastSummaryCount := by rw [hBf.2.2.1, hAsc]
  have hBkvsc : (afterSave (hydrate st) inp.msg inp.kvHistOk).kvSummaryCount
      = st.lastSummaryCount := by rw [hBf.2.2.2.1, hAkv.2.2.1, hs1]
  have hBdd : (afterSave (hydrate st) inp.msg inp.kvHistOk).lastDiaryDate
      = st.lastDiaryDate := by rw [hBf.2.2.2.2.2.2.1, hAdd]
  have hBkvdd : (afterSave (hydrate st) inp.msg inp.kvHistOk).kvDiaryDate
      = st.lastDiaryDate := by rw [hBf.2.2.2.2.2.2.2, hAkv.2.2.2.2, hs2]
  have hCm := summaryStep_markers (afterSave (hydrate st) inp.msg inp.kvHistOk)
    inp hcok (by rw [hBkvsc, hBsc])
  have hCu := summaryStep_untouched (afterSave (hydrate st) inp.msg inp.kvHistOk) inp
  have hCdd : (summaryStep (afterSave (hydrate st) inp.msg inp.kvHistOk) inp).lastDiaryDate
      = st.lastDiaryDate := by rw [hCu.2.2.2.2.1, hBdd]
  have hCkvdd : (summaryStep (afterSave (hydrate st) inp.msg inp.kvHistOk) inp).kvDiaryDate
      = st.lastDiaryDate := by rw [hCu.2.2.2.2.2, hBkvdd]
  have hDm := diaryStep_markers (summaryStep (afterSave (hydrate st) inp.msg inp.kvHistOk) inp)
    inp hdok (by rw [hCkvdd, hCdd]) (by rw [hCdd]; exact hdate)
  have hDu := diaryStep_untouched (summaryStep (afterSave (hydrate st) inp.msg inp.kvHistOk) inp) inp
  have hweb : webhookTurn st inp
      = diaryStep (summaryStep (afterSave (hydrate st) inp.msg inp.kvHistOk) inp) inp := rfl
  refine ⟨⟨?_, ?_⟩, ?_, ?_⟩
  · rw [hweb, hDu.2.2.2.2.2, hDu.2.2.2.2.1]
    exact hCm.1
  · rw [hweb]
    exact hDm.1
  · rw [hweb, hDu.2.2.2.2.1]
    calc st.lastSummaryCount.getD 0
        = (afterSave (hydrate st) inp.msg inp.kvHistOk).lastSummaryCount.getD 0 := by
          rw [hBsc]
      _ ≤ _ := hCm.2
  · rw [hweb]
    have := hDm.2
    rwa [hCdd] at this

/-- Closed witness for the hypotheses of `markers_monotone_turn`. -/
theorem markers_monotone_turn_w :
    kvMarkersInSync (webhookTurn initE okTurn) ∧
    initE.lastSummaryCount.getD 0 ≤ (webhookTurn initE okTurn).lastSummaryCount.getD 0 ∧
    optDateLe initE.lastDiaryDate (webhookTurn initE okTurn).lastDiaryDate :=
  markers_monotone_turn initE okTurn ⟨rfl, rfl⟩ rfl rfl (fun _ h => nomatch h)

/-! ## C2 -/

/-- C2 counterexample: ten turns, the tenth with a failed summary
generation (`generateConversationSummary` returns null): no category
summary is written, yet `lastSummaryMarker` is advanced to 10 — the
promise resolves even on failure and the `.then` handler sets the
counter, so the same window is never retried. -/
theorem summary_failure_advances_marker :
    (runEngine (List.replicate 9 okTurn ++ [genFailTurn])).lastSummaryCount
      = some 10 ∧
    (runEngine (List.replicate 9 okTurn ++ [genFailTurn])).summaries = [] := by
  constructor
  · decide
  · decide

/-- C2 amended: when the summary trigger fires and the generation fails,
no `CategorySummary` entry is written (in memory or to KV), but
`lastSummaryMarker` is still advanced to the current count, because
`saveConversationSummary` swallows every error and the marker is set in
the promise's `.then` continuation. -/
theorem summary_failure_skips_window (st : SEngine) (inp : TurnInput)
    (hfail : inp.sumResult = none)
    (hfire : 0 < (afterSave (hydrate st) inp.msg inp.kvHistOk).history.length ∧
      (afterSave (hydrate st) inp.msg inp.kvHistOk).lastSummaryCount.getD 0 + 10 ≤
        (afterSave (hydrate st) inp.msg inp.kvHistOk).history.length) :
    (webhookTurn st inp).summaries = (hydrate st).summaries ∧
    (webhookTurn st inp).kvSummaries = (hydrate st).kvSummaries ∧
    (webhookTurn st inp).lastSummaryCount
      = some (afterSave (hydrate st) inp.msg inp.kvHistOk).history.length := by
  have hBf := afterSave_fields (hydrate st) inp.msg inp.kvHistOk
  have h1 := summaryStep_failed_fired (afterSave (hydrate st) inp.msg inp.kvHistOk)
    inp hfail hfire
  have h2 := diaryStep_untouched
    (summaryStep (afterSave (hydrate st) inp.msg inp.kvHistOk) inp) inp
  have hweb : webhookTurn st inp
      = diaryStep (summaryStep (afterSave (hydrate st) inp.msg inp.kvHistOk) inp) inp := rfl
  refine ⟨?_, ?_, ?_⟩
  · rw [hweb, h2.2.2.1, h1.1, hBf.1]
  · rw [hweb, h2.2.2.2.1, h1.2.1, hBf.2.1]
  · rw [hweb, h2.2.2.2.2.1, h1.2.2]

/-- Closed witness for the hypotheses of `summary_failure_skips_window`. -/
theorem summary_failure_skips_window_w :
    (webhookTurn (runEngine (List.replicate 9 okTurn)) genFailTurn).summaries
      = (hydrate (runEngine (List.replicate 9 okTurn))).summaries ∧
    (webhookTurn (runEngine (List.replicate 9 okTurn)) genFailTurn).kvSummaries
      = (hydrate (runEngine (List.replicate 9 okTurn))).kvSummaries ∧
    (webhookTurn (runEngine (List.replicate 9 okTurn)) genFailTurn).lastSummaryCount
      = some (afterSave (hydrate (runEngine (List.replicate 9 okTurn)))
          genFailTurn.msg genFailTurn.kvHistOk).history.length :=
  summary_failure_skips_window (runEngine (List.replicate 9 okTurn)) genFailTurn
    (by decide) (by decide)

/-! ## C1 -/

/-- C1 counterexample: in a 60-turn run with every generation and every
durable write succeeding, the summarizer fires on turn 50 (index 49) and
then never again — `count` is the evicting buffer's length, which stays
at 50, so `count >= marker + N` is false forever after; the summarizer
does not keep firing every N turns past H = 50 total turns. -/
theorem summarizer_silent_after_fifty :
    (runEvents initE (List.replicate 60 okTurn)).getD 49 false = true ∧
    (runEvents initE (List.replicate 60 okTurn)).drop 50
      = List.replicate 10 false := by
  constructor
  · decide
  · decide

theorem webhookTurn_inv_step (k : Nat) (st : SEngine) (inp : TurnInput)
    (hinv : summaryInv k st) (hhok : inp.kvHistOk = true)
    (hcok : inp.kvCountOk = true) :
    (summaryFiredOnTurn st inp = true ↔ ((k + 1) % 10 = 0 ∧ k + 1 ≤ 50)) ∧
    summaryInv (k + 1) (webhookTurn st inp) := by
  obtain ⟨hlen, hmark, hkvh, hsync⟩ := hinv
  have hAh : (hydrate st).history = st.history := hydrate_history st hkvh
  have hAsc : (hydrate st).lastSummaryCount = st.lastSummaryCount :=
    hydrate_lastSummaryCount st hsync
  have hAkv := hydrate_kv_fields st
  have hBdef := afterSave_history (hydrate st) inp.msg
  rw [← hhok] at hBdef
  have hBf := afterSave_fields (hydrate st) inp.msg inp.kvHistOk
  have hBlen : (afterSave (hydrate st) inp.msg inp.kvHistOk).history.length
      = min (k + 1) 50 := by
    rw [hBdef.1, hAh]
    rw [length_pushEvict st.history inp.msg (by omega)]
    omega
  have hBsc : (afterSave (hydrate st) inp.msg inp.kvHistOk).lastSummaryCount.getD 0
      = 10 * min (k / 10) 5 := by
    rw [hBf.2.2.1, hAsc, hmark]
  have hiff : (summaryFiredOnTurn st inp = true ↔ ((k + 1) % 10 = 0 ∧ k + 1 ≤ 50)) := by
    unfold summaryFiredOnTurn
    rw [decide_eq_true_eq]
    rw [hBlen, hBsc]
    omega
  refine ⟨hiff, ?_, ?_, ?_, ?_⟩
  · -- history length
    have hCu := summaryStep_untouched (afterSave (hydrate st) inp.msg inp.kvHistOk) inp
    have hDu := diaryStep_untouched
      (summaryStep (afterSave (hydrate st) inp.msg inp.kvHistOk) inp) inp
    show (diaryStep (summaryStep (afterSave (hydrate st) inp.msg inp.kvHistOk) inp) inp).history.length = _
    rw [hDu.1, hCu.1, hBlen]
  · -- marker value
    have hDu := diaryStep_untouched
      (summaryStep (afterSave (hydrate st) inp.msg inp.kvHistOk) inp) inp
    show (diaryStep (summaryStep (afterSave (hydrate st) inp.msg inp.kvHistOk) inp) inp).lastSummaryCount.getD 0 = _
    rw [hDu.2.2.2.2.1]
    by_cases hfire : 0 < (afterSave (hydrate st) inp.msg inp.kvHistOk).history.length ∧
        (afterSave (hydrate st) inp.msg inp.kvHistOk).lastSummaryCount.getD 0 + 10 ≤
          (afterSave (hydrate st) inp.msg inp.kvHistOk).history.length
    · have hP : (k + 1) % 10 = 0 ∧ k + 1 ≤ 50 := by
        rw [hBlen, hBsc] at hfire
        omega
      rw [(summaryStep_marker_value _ inp hcok hfire).1]
      rw [hBlen] at hfire ⊢
      simp
      omega
    · rw [summaryStep_not_fired _ inp hfire, hBsc]
      have hnP : ¬ ((k + 1) % 10 = 0 ∧ k + 1 ≤ 50) := by
        rw [hBlen, hBsc] at hfire
        omega
      omega
  · -- kv history mirrors
    have hCu := summaryStep_untouched (afterSave (hydrate st) inp.msg inp.kvHistOk) inp
    have hDu := diaryStep_untouched
      (summaryStep (afterSave (hydrate st) inp.msg inp.kvHistOk) inp) inp
    right
    show (diaryStep (summaryStep (afterSave (hydrate st) inp.msg inp.kvHistOk) inp) inp).kvHistory
        = some (diaryStep (summaryStep (afterSave (hydrate st) inp.msg inp.kvHistOk) inp) inp).history
    rw [hDu.1, hCu.1, hDu.2.1, hCu.2.1, hBdef.2, hBdef.1]
  · -- markers in sync
    have hDu := diaryStep_untouched
      (summaryStep (afterSave (hydrate st) inp.msg inp.kvHistOk) inp) inp
    show (diaryStep (summaryStep (afterSave (hydrate st) inp.msg inp.kvHistOk) inp) inp).kvSummaryCount
        = (diaryStep (summaryStep (afterSave (hydrate st) inp.msg inp.kvHistOk) inp) inp).lastSummaryCount
    rw [hDu.2.2.2.2.2, hDu.2.2.2.2.1]
    by_cases hfire : 0 < (afterSave (hydrate st) inp.msg inp.kvHistOk).history.length ∧
        (afterSave (hydrate st) inp.msg inp.kvHistOk).lastSummaryCount.getD 0 + 10 ≤
          (afterSave (hydrate st) inp.msg inp.kvHistOk).history.length
    · obtain ⟨hm1, hm2⟩ := summaryStep_marker_value _ inp hcok hfire
      rw [hm1, hm2]
    · rw [summaryStep_not_fired _ inp hfire]
      rw [hBf.2.2.2.1, hBf.2.2.1, hAkv.2.2.1, hAsc, hsync]

theorem runEvents_fired_iff :
    ∀ (inputs : List TurnInput) (k : Nat) (st : SEngine),
    summaryInv k st →
    (∀ inp ∈ inputs, inp.kvHistOk = true ∧ inp.kvCountOk = true) →
    ∀ t, t < inputs.length →
    ((runEvents st inputs).getD t false = true
      ↔ ((k + t + 1) % 10 = 0 ∧ k + t + 1 ≤ 50)) := by
  intro inputs
  induction inputs with
  | nil =>
    intro k st _ _ t ht
    simp at ht
  | cons i is ih =>
    intro k st hinv hok t ht
    have hstep := webhookTurn_inv_step k st i hinv
      (hok i (List.mem_cons_self i is)).1 (hok i (List.mem_cons_self i is)).2
    cases t with
    | zero =>
      show ((summaryFiredOnTurn st i :: runEvents (webhookTurn st i) is).getD 0 false = true ↔ _)
      rw [List.getD_cons_zero]
      exact hstep.1
    | succ t2 =>
      show ((summaryFiredOnTurn st i :: runEvents (webhookTurn st i) is).getD (t2 + 1) false = true ↔ _)
      rw [List.getD_cons_succ]
      have hres := ih (k + 1) (webhookTurn st i) hstep.2
        (fun inp hm => hok inp (List.mem_cons_of_mem i hm)) t2
        (by simp at ht; omega)
      have harith : k + 1 + t2 + 1 = k + (t2 + 1) + 1 := by omega
      rwa [harith] at hres

/-- C1 amended: `count` is the evicting buffer's length (`min k 50`),
not a monotonically increasing counter.  In a run from a fresh
conversation in which every history and counter write to the durable
store succeeds, the summary trigger fires on turn `t+1` exactly when
`t+1` is a positive multiple of N = 10 that is at most H = 50: it fires
at 10, 20, 30, 40, 50 and never again after 50 total turns (the
"at least 5 turns" condition is implied since the marker is
non-negative). -/
theorem summary_trigger_fires_iff (inputs : List TurnInput)
    (hok : ∀ inp ∈ inputs, inp.kvHistOk = true ∧ inp.kvCountOk = true)
    (t : Nat) (ht : t < inputs.length) :
    ((runEvents initE inputs).getD t false = true
      ↔ ((t + 1) % 10 = 0 ∧ t + 1 ≤ 50)) := by
  have h0 : summaryInv 0 initE := by
    refine ⟨by simp [initE], by simp [initE], Or.inl ⟨rfl, rfl⟩, rfl⟩
  have hres := runEvents_fired_iff inputs 0 initE h0 hok t ht
  simpa using hres

/-- Closed witness for the hypotheses of `summary_trigger_fires_iff`. -/
theorem summary_trigger_fires_iff_w :
    ((runEvents initE (List.replicate 12 okTurn)).getD 9 false = true
      ↔ ((9 + 1) % 10 = 0 ∧ 9 + 1 ≤ 50)) :=
  summary_trigger_fires_iff (List.replicate 12 okTurn) (by decide) 9 (by decide)

end Rincon
